import Mathlib

/-!
Verification of the chat-to-speech streaming pipeline of the Talkback-AI
repository against its design specification.

The development shallowly embeds the TypeScript sources:

* `src/util/util.ts` — `smartSplit` (sentence-aware text chunker) and
  `retryWithBackoff` (backoff retrier);
* `src/controllers/SessionManager.ts` — the session registry;
* `src/services/OpenAIService.ts` — `processChain`, `getChatCompletion`,
  `getTTSAudioStream`, `handleError`, `sendToWebSocket`;
* `src/controllers/SocketManager.ts` — the per-message WebSocket handler.

Strings are modeled as `List Char` (one element per UTF-16 unit of the
JavaScript string; surrogate pairs do not occur in the inputs considered
here).  Upstream services, the transport, and externally triggered session
registry mutations are modeled as oracles supplied to each run, and the
cooperative single-threaded scheduling of the runtime is modeled by applying
the external mutation oracle at each `await` suspension point.
-/

/-- Terminal sentence punctuation, the class `[.!?]` of the sentence regex in
`smartSplit` (src/util/util.ts). -/
def isTermCh (c : Char) : Bool := c = '.' || c = '!' || c = '?'

/-- Closing-quote characters, the class `["']` of the sentence regex
(`Char.ofNat 34` is the double quote, `Char.ofNat 39` the apostrophe). -/
def isQuoteCh (c : Char) : Bool := c = Char.ofNat 34 || c = Char.ofNat 39

/-- Whitespace, modeling the JavaScript `\s` class and `String.prototype.trim`
on the character set relevant here: space, tab, line feed, carriage return,
vertical tab (11), form feed (12) and no-break space (160).  The further
Unicode space characters matched by `\s` are omitted; no input considered in
this development contains them. -/
def isSpaceCh (c : Char) : Bool :=
  c = ' ' || c = '\t' || c = '\n' || c = '\r' ||
  c = Char.ofNat 11 || c = Char.ofNat 12 || c = Char.ofNat 160

/-- JavaScript `String.prototype.trim`: remove whitespace from both ends. -/
def jsTrim (s : List Char) : List Char :=
  ((s.dropWhile isSpaceCh).reverse.dropWhile isSpaceCh).reverse

/-- States of the scanner implementing the global regex
`/[^.!?]+[.!?]+["']?\s*|[^.!?]+$/g` used by `smartSplit` to cut the text into
sentence-like segments.  `skip` is between matches (a terminal character at
that point belongs to no match and is skipped); `inA` is inside the leading
`[^.!?]+` run; `inB` inside the `[.!?]+` run; `inQ` just after the optional
closing quote; `inW` inside the trailing `\s*` run. -/
inductive MState where
  | skip
  | inA
  | inB
  | inQ
  | inW
deriving DecidableEq

/-- Scanner for the sentence regex.  `buf` is the current (partial) match.
Since `[^.!?]+` is greedy and disjoint from `[.!?]`, the regex backtracking
never shrinks a run, so each match is exactly: a maximal run of
non-terminals, then (if the next character is a terminal) a maximal run of
terminals, at most one quote character, and a maximal run of whitespace;
a maximal non-terminal run that reaches the end of the string matches the
second alternative `[^.!?]+$`. -/
def sentencesGo : MState → List Char → List Char → List (List Char)
  | .skip, _, [] => []
  | .inA, buf, [] => [buf]
  | .inB, buf, [] => [buf]
  | .inQ, buf, [] => [buf]
  | .inW, buf, [] => [buf]
  | .skip, _, c :: cs =>
      if isTermCh c then sentencesGo .skip [] cs
      else sentencesGo .inA [c] cs
  | .inA, buf, c :: cs =>
      if isTermCh c then sentencesGo .inB (buf ++ [c]) cs
      else sentencesGo .inA (buf ++ [c]) cs
  | .inB, buf, c :: cs =>
      if isTermCh c then sentencesGo .inB (buf ++ [c]) cs
      else if isQuoteCh c then sentencesGo .inQ (buf ++ [c]) cs
      else if isSpaceCh c then sentencesGo .inW (buf ++ [c]) cs
      else buf :: sentencesGo .inA [c] cs
  | .inQ, buf, c :: cs =>
      if isSpaceCh c then sentencesGo .inW (buf ++ [c]) cs
      else if isTermCh c then buf :: sentencesGo .skip [] cs
      else buf :: sentencesGo .inA [c] cs
  | .inW, buf, c :: cs =>
      if isSpaceCh c then sentencesGo .inW (buf ++ [c]) cs
      else if isTermCh c then buf :: sentencesGo .skip [] cs
      else buf :: sentencesGo .inA [c] cs

/-- All matches of the sentence regex in `text` (the result of
`text.match(/[^.!?]+[.!?]+["']?\s*|[^.!?]+$/g)`, with `null` represented by
the empty list). -/
def sentencesCore (text : List Char) : List (List Char) :=
  sentencesGo .skip [] text

/-- The segment list used by `smartSplit`:
`text.match(...) || [text]` — when the regex has no match at all (empty
string, or a string of terminal punctuation only) the whole text is the
single segment. -/
def sentences (text : List Char) : List (List Char) :=
  match sentencesCore text with
  | [] => [text]
  | r => r

/-- The greedy accumulation loop of `smartSplit` (src/util/util.ts): fold the
segments into a running buffer; when appending the next segment would push
the buffer past `maxChunkSize`, flush the trimmed buffer (if non-empty, per
JavaScript string truthiness) and restart the buffer from that segment; flush
the remaining buffer at the end. -/
def chunkLoop (maxChunkSize : Nat) : List (List Char) → List Char → List (List Char)
  | [], currentChunk =>
      if currentChunk = [] then [] else [jsTrim currentChunk]
  | s :: rest, currentChunk =>
      if maxChunkSize < currentChunk.length + s.length then
        (if currentChunk = [] then [] else [jsTrim currentChunk]) ++
          chunkLoop maxChunkSize rest s
      else chunkLoop maxChunkSize rest (currentChunk ++ s)

/-- `smartSplit(text, maxChunkSize)` from src/util/util.ts: texts strictly
shorter than the limit are returned unchanged as a single chunk; otherwise
the sentence segments are greedily merged under the limit. -/
def smartSplit (text : List Char) (maxChunkSize : Nat) : List (List Char) :=
  if text.length < maxChunkSize then [text]
  else chunkLoop maxChunkSize (sentences text) []

/-- Instrumented version of `chunkLoop` that additionally records, for every
produced chunk, how many sentence segments were merged into it (`n` counts
the segments currently in the buffer). -/
def chunkLoopN (maxChunkSize : Nat) :
    List (List Char) → List Char → Nat → List (List Char × Nat)
  | [], currentChunk, n =>
      if currentChunk = [] then [] else [(jsTrim currentChunk, n)]
  | s :: rest, currentChunk, n =>
      if maxChunkSize < currentChunk.length + s.length then
        (if currentChunk = [] then [] else [(jsTrim currentChunk, n)]) ++
          chunkLoopN maxChunkSize rest s 1
      else chunkLoopN maxChunkSize rest (currentChunk ++ s) (n + 1)

/-- Instrumented `smartSplit`: each chunk paired with the number of sentence
segments merged into it.  The short-text fast path returns the whole text as
a single one-segment chunk. -/
def smartSplitAnnotated (text : List Char) (maxChunkSize : Nat) :
    List (List Char × Nat) :=
  if text.length < maxChunkSize then [(text, 1)]
  else chunkLoopN maxChunkSize (sentences text) [] 0

/-- Trimming never lengthens a string. -/
theorem jsTrim_length_le (s : List Char) : (jsTrim s).length ≤ s.length := by
  have hdw : ∀ (l : List Char), (l.dropWhile isSpaceCh).length ≤ l.length := by
    intro l
    induction l with
    | nil => simp
    | cons c cs ih =>
      by_cases h : isSpaceCh c
      · simp only [List.dropWhile, h]
        simp only [List.length_cons]
        omega
      · simp [List.dropWhile, h]
  calc (jsTrim s).length
      = ((s.dropWhile isSpaceCh).reverse.dropWhile isSpaceCh).length := by
        simp [jsTrim]
    _ ≤ (s.dropWhile isSpaceCh).reverse.length := hdw _
    _ ≤ s.length := by
        rw [List.length_reverse]
        exact hdw s

/-- A string trims to empty exactly when it is all whitespace. -/
theorem jsTrim_eq_nil_iff (s : List Char) :
    jsTrim s = [] ↔ ∀ c ∈ s, isSpaceCh c = true := by
  unfold jsTrim
  rw [List.reverse_eq_nil_iff, List.dropWhile_eq_nil_iff]
  constructor
  · intro h c hc
    have hs : s = s.takeWhile isSpaceCh ++ s.dropWhile isSpaceCh :=
      (List.takeWhile_append_dropWhile isSpaceCh s).symm
    rw [hs] at hc
    rcases List.mem_append.mp hc with h1 | h1
    · exact List.mem_takeWhile_imp h1
    · exact h c (List.mem_reverse.mpr h1)
  · intro h c hc
    have h1 : c ∈ s.dropWhile isSpaceCh := List.mem_reverse.mp hc
    have hs : s = s.takeWhile isSpaceCh ++ s.dropWhile isSpaceCh :=
      (List.takeWhile_append_dropWhile isSpaceCh s).symm
    exact h c (by rw [hs]; exact List.mem_append.mpr (Or.inr h1))

/-- A non-whitespace character of `s` survives `jsTrim`. -/
theorem mem_jsTrim (c : Char) (s : List Char) (hc : c ∈ s)
    (hns : isSpaceCh c = false) : c ∈ jsTrim s := by
  have hmem : ∀ (l : List Char), c ∈ l → c ∈ l.dropWhile isSpaceCh := by
    intro l hl
    have hs : l = l.takeWhile isSpaceCh ++ l.dropWhile isSpaceCh :=
      (List.takeWhile_append_dropWhile isSpaceCh l).symm
    rw [hs] at hl
    rcases List.mem_append.mp hl with h1 | h1
    · exact absurd (List.mem_takeWhile_imp h1) (by simp [hns])
    · exact h1
  unfold jsTrim
  rw [List.mem_reverse]
  exact hmem _ (List.mem_reverse.mpr (hmem _ hc))

/-- Terminal punctuation is not whitespace. -/
theorem isTermCh_not_space (c : Char) (h : isTermCh c = true) :
    isSpaceCh c = false := by
  simp only [isTermCh, Bool.or_eq_true, decide_eq_true_eq] at h
  rcases h with (h | h) | h <;> subst h <;> decide

/-- A string containing a terminal punctuation character does not trim to
empty. -/
theorem jsTrim_ne_nil_of_term (s : List Char) (h : s.any isTermCh = true) :
    jsTrim s ≠ [] := by
  rcases List.any_eq_true.mp h with ⟨c, hc, hterm⟩
  intro hnil
  have := (jsTrim_eq_nil_iff s).mp hnil c hc
  rw [isTermCh_not_space c hterm] at this
  cases this

/-- Every segment the sentence scanner emits is non-empty (both regex
alternatives require at least one character). -/
theorem sentencesGo_elem_ne_nil :
    ∀ (l : List Char) (st : MState) (buf : List Char),
      (st ≠ .skip → buf ≠ []) →
      ∀ s ∈ sentencesGo st buf l, s ≠ [] := by
  intro l
  induction l with
  | nil =>
    intro st buf hbuf s hs
    cases st <;> simp only [sentencesGo] at hs
    · exact absurd hs (List.not_mem_nil s)
    all_goals
      rw [List.mem_singleton] at hs
      subst hs
      exact hbuf (by intro h; cases h)
  | cons c cs ih =>
    intro st buf hbuf s hs
    cases st <;> simp only [sentencesGo] at hs <;> split_ifs at hs
    -- skip
    · exact ih .skip [] (by intro h; exact absurd rfl h) s hs
    · exact ih .inA [c] (by intro _; simp) s hs
    -- inA
    · exact ih .inB (buf ++ [c]) (by intro _; simp) s hs
    · exact ih .inA (buf ++ [c]) (by intro _; simp) s hs
    -- inB
    · exact ih .inB (buf ++ [c]) (by intro _; simp) s hs
    · exact ih .inQ (buf ++ [c]) (by intro _; simp) s hs
    · exact ih .inW (buf ++ [c]) (by intro _; simp) s hs
    · rcases List.mem_cons.mp hs with h | h
      · subst h; exact hbuf (by intro h; cases h)
      · exact ih .inA [c] (by intro _; simp) s h
    -- inQ
    · exact ih .inW (buf ++ [c]) (by intro _; simp) s hs
    · rcases List.mem_cons.mp hs with h | h
      · subst h; exact hbuf (by intro h; cases h)
      · exact ih .skip [] (by intro h; exact absurd rfl h) s h
    · rcases List.mem_cons.mp hs with h | h
      · subst h; exact hbuf (by intro h; cases h)
      · exact ih .inA [c] (by intro _; simp) s h
    -- inW
    · exact ih .inW (buf ++ [c]) (by intro _; simp) s hs
    · rcases List.mem_cons.mp hs with h | h
      · subst h; exact hbuf (by intro h; cases h)
      · exact ih .skip [] (by intro h; exact absurd rfl h) s h
    · rcases List.mem_cons.mp hs with h | h
      · subst h; exact hbuf (by intro h; cases h)
      · exact ih .inA [c] (by intro _; simp) s h

/-- The segment list is never empty (the `|| [text]` fallback). -/
theorem sentences_ne_nil (text : List Char) : sentences text ≠ [] := by
  unfold sentences
  cases h : sentencesCore text with
  | nil => simp
  | cons a l => simp

/-- For non-empty text every segment is non-empty. -/
theorem sentences_elem_ne_nil (text : List Char) (htext : text ≠ []) :
    ∀ s ∈ sentences text, s ≠ [] := by
  intro s hs
  unfold sentences at hs
  cases h : sentencesCore text with
  | nil => rw [h] at hs; rw [List.mem_singleton] at hs; subst hs; exact htext
  | cons a l =>
    rw [h] at hs
    exact sentencesGo_elem_ne_nil text .skip []
      (by intro h; exact absurd rfl h) s (by rw [sentencesCore, h] at *; exact hs)

/-- The accumulation loop yields at least one chunk when fed at least one
non-empty segment. -/
theorem chunkLoop_ne_nil (limit : Nat) :
    ∀ (l : List (List Char)) (cur : List Char),
      (∀ s ∈ l, s ≠ []) → l ≠ [] → chunkLoop limit l cur ≠ [] := by
  intro l
  induction l with
  | nil => intro cur _ h; exact absurd rfl h
  | cons s rest ih =>
    intro cur hne _
    have hs : s ≠ [] := hne s (List.mem_cons_self s rest)
    rw [chunkLoop]
    by_cases hr : rest = []
    · subst hr
      by_cases h1 : limit < cur.length + s.length
      · rw [if_pos h1]
        intro h
        rcases List.append_eq_nil.mp h with ⟨_, h2⟩
        rw [chunkLoop, if_neg hs] at h2
        cases h2
      · rw [if_neg h1, chunkLoop,
          if_neg (by intro hh; exact hs (List.append_eq_nil.mp hh).2 :
            ¬cur ++ s = [])]
        simp
    · have hrec : ∀ cur', chunkLoop limit rest cur' ≠ [] :=
        fun cur' => ih cur' (fun x hx => hne x (List.mem_cons_of_mem s hx)) hr
      by_cases h1 : limit < cur.length + s.length
      · rw [if_pos h1]
        intro h
        rcases List.append_eq_nil.mp h with ⟨_, h2⟩
        exact hrec s h2
      · rw [if_neg h1]
        exact hrec (cur ++ s)

/-- The annotated loop projects onto the plain loop. -/
theorem chunkLoopN_fst (limit : Nat) :
    ∀ (l : List (List Char)) (cur : List Char) (n : Nat),
      (chunkLoopN limit l cur n).map Prod.fst = chunkLoop limit l cur := by
  intro l
  induction l with
  | nil =>
    intro cur n
    by_cases h : cur = [] <;> simp [chunkLoopN, chunkLoop, h]
  | cons s rest ih =>
    intro cur n
    rw [chunkLoopN, chunkLoop]
    by_cases h1 : limit < cur.length + s.length
    · rw [if_pos h1, if_pos h1, List.map_append, ih]
      by_cases h2 : cur = [] <;> simp [h2]
    · rw [if_neg h1, if_neg h1, ih]

/-- Invariant of the annotated loop: the buffer always satisfies its own
segment count's obligations — a buffer holding two or more merged segments is
within the limit, and a non-empty buffer holds at least one segment. -/
theorem chunkLoopN_inv (limit : Nat) :
    ∀ (l : List (List Char)) (cur : List Char) (n : Nat),
      (2 ≤ n → cur.length ≤ limit) → (cur ≠ [] → 1 ≤ n) →
      ∀ p ∈ chunkLoopN limit l cur n, 1 ≤ p.2 ∧ (2 ≤ p.2 → p.1.length ≤ limit) := by
  intro l
  induction l with
  | nil =>
    intro cur n hlen hpos p hp
    rw [chunkLoopN] at hp
    by_cases h : cur = []
    · rw [if_pos h] at hp
      exact absurd hp (List.not_mem_nil p)
    · rw [if_neg h] at hp
      rw [List.mem_singleton] at hp
      subst hp
      exact ⟨hpos h, fun h2 => le_trans (jsTrim_length_le cur) (hlen h2)⟩
  | cons s rest ih =>
    intro cur n hlen hpos p hp
    rw [chunkLoopN] at hp
    by_cases h1 : limit < cur.length + s.length
    · rw [if_pos h1] at hp
      rcases List.mem_append.mp hp with h | h
      · by_cases h2 : cur = []
        · rw [if_pos h2] at h
          exact absurd h (List.not_mem_nil p)
        · rw [if_neg h2] at h
          rw [List.mem_singleton] at h
          subst h
          exact ⟨hpos h2, fun h3 => le_trans (jsTrim_length_le cur) (hlen h3)⟩
      · exact ih s 1 (by omega) (fun _ => le_refl 1) p h
    · rw [if_neg h1] at hp
      refine ih (cur ++ s) (n + 1) (fun _ => ?_) (fun _ => by omega) p hp
      rw [List.length_append]
      omega

/-- CLAIM C5 (confirmed).  For every string strictly shorter than the limit,
`smartSplit` returns the single-element sequence holding the text unchanged;
in particular the empty string yields `[""]` for every positive limit. -/
theorem smartSplit_short :
    (∀ (text : List Char) (limit : Nat), text.length < limit →
        smartSplit text limit = [text]) ∧
      ∀ limit : Nat, 0 < limit → smartSplit [] limit = [[]] := by
  constructor
  · intro text limit h
    simp [smartSplit, h]
  · intro limit h
    simp [smartSplit, h]

/-- Witness for `smartSplit_short` at concrete inputs. -/
theorem smartSplit_short_witness :
    smartSplit "Hi".toList 4096 = ["Hi".toList] ∧ smartSplit [] 3 = [[]] :=
  ⟨smartSplit_short.1 "Hi".toList 4096 (by decide), smartSplit_short.2 3 (by decide)⟩

/-- CLAIM C10 (confirmed).  For every text and every limit at least 1,
`smartSplit` returns at least one chunk; in particular any pipeline run that
reaches the synthesis stage (limit 4096) has at least one chunk. -/
theorem smartSplit_ne_nil :
    ∀ (text : List Char) (limit : Nat), 1 ≤ limit → smartSplit text limit ≠ [] := by
  intro text limit hlim
  unfold smartSplit
  split_ifs with h
  · simp
  · have htext : text ≠ [] := by
      intro he
      subst he
      simp at h
      omega
    exact chunkLoop_ne_nil limit (sentences text) []
      (sentences_elem_ne_nil text htext) (sentences_ne_nil text)

/-- Witness for `smartSplit_ne_nil` at a concrete input. -/
theorem smartSplit_ne_nil_witness : smartSplit "xyz".toList 1 ≠ [] :=
  smartSplit_ne_nil "xyz".toList 1 (by decide)

/-- CLAIM C6 (confirmed).  Every chunk merged from two or more sentence
segments has length at most the limit; only a chunk holding a single
(oversized) segment may exceed it.  The first conjunct ties the instrumented
splitter to `smartSplit` itself. -/
theorem smartSplit_merged_within_limit :
    ∀ (text : List Char) (limit : Nat),
      (smartSplitAnnotated text limit).map Prod.fst = smartSplit text limit ∧
        ∀ p ∈ smartSplitAnnotated text limit,
          1 ≤ p.2 ∧ (2 ≤ p.2 → p.1.length ≤ limit) := by
  intro text limit
  constructor
  · unfold smartSplitAnnotated smartSplit
    split_ifs with h
    · simp
    · exact chunkLoopN_fst limit (sentences text) [] 0
  · intro p hp
    unfold smartSplitAnnotated at hp
    split_ifs at hp with h
    · rw [List.mem_singleton] at hp
      subst hp
      exact ⟨le_refl 1, by omega⟩
    · exact chunkLoopN_inv limit (sentences text) [] 0
        (by omega) (fun hc => absurd rfl hc) p hp

/-- Witness for `smartSplit_merged_within_limit`: a chunk actually merged from
two segments stays within the limit. -/
theorem smartSplit_merged_within_limit_witness :
    1 ≤ ("Aa. Bb.".toList, 2).2 ∧ ("Aa. Bb.".toList).length ≤ 8 := by
  have h := (smartSplit_merged_within_limit "Aa. Bb. Cc.".toList 8).2
    ("Aa. Bb.".toList, 2) (by decide)
  exact ⟨h.1, h.2 (by decide)⟩

/-- Membership in `dropLast` of a cons. -/
theorem mem_dropLast_cons {α : Type} {s x : α} {xs : List α}
    (h : s ∈ (x :: xs).dropLast) : (xs ≠ [] ∧ s = x) ∨ s ∈ xs.dropLast := by
  cases xs with
  | nil => simp [List.dropLast] at h
  | cons y ys =>
    have hd : (x :: y :: ys).dropLast = x :: (y :: ys).dropLast := rfl
    rw [hd] at h
    rcases List.mem_cons.mp h with h | h
    · exact Or.inl ⟨by simp, h⟩
    · exact Or.inr h

/-- Every scanner segment except possibly the last contains a terminal
punctuation character: only the final segment can match the unterminated
alternative `[^.!?]+$`. -/
theorem sentencesGo_dropLast_term :
    ∀ (l : List Char) (st : MState) (buf : List Char),
      (st = .inB ∨ st = .inQ ∨ st = .inW → buf.any isTermCh = true) →
      ∀ s ∈ (sentencesGo st buf l).dropLast, s.any isTermCh = true := by
  intro l
  induction l with
  | nil =>
    intro st buf _ s hs
    cases st <;> simp only [sentencesGo, List.dropLast_single, List.dropLast_nil] at hs <;>
      exact absurd hs (List.not_mem_nil s)
  | cons c cs ih =>
    intro st buf hbuf s hs
    have happ : ∀ (b : List Char), b.any isTermCh = true → (b ++ [c]).any isTermCh = true := by
      intro b hb
      rw [List.any_append, hb]
      rfl
    have hterm : ∀ (b : List Char), isTermCh c = true → (b ++ [c]).any isTermCh = true := by
      intro b hc
      rw [List.any_append, Bool.or_eq_true]
      exact Or.inr (by simp [hc])
    cases st <;> simp only [sentencesGo] at hs
    -- skip
    · by_cases h1 : isTermCh c
      · rw [if_pos h1] at hs
        exact ih .skip [] (by intro h; rcases h with h | h | h <;> cases h) s hs
      · rw [if_neg h1] at hs
        exact ih .inA [c] (by intro h; rcases h with h | h | h <;> cases h) s hs
    -- inA
    · by_cases h1 : isTermCh c
      · rw [if_pos h1] at hs
        exact ih .inB (buf ++ [c]) (fun _ => hterm buf h1) s hs
      · rw [if_neg h1] at hs
        exact ih .inA (buf ++ [c]) (by intro h; rcases h with h | h | h <;> cases h) s hs
    -- inB
    · have hbufB : buf.any isTermCh = true := hbuf (Or.inl rfl)
      by_cases h1 : isTermCh c
      · rw [if_pos h1] at hs
        exact ih .inB (buf ++ [c]) (fun _ => happ buf hbufB) s hs
      · rw [if_neg h1] at hs
        by_cases h2 : isQuoteCh c
        · rw [if_pos h2] at hs
          exact ih .inQ (buf ++ [c]) (fun _ => happ buf hbufB) s hs
        · rw [if_neg h2] at hs
          by_cases h3 : isSpaceCh c
          · rw [if_pos h3] at hs
            exact ih .inW (buf ++ [c]) (fun _ => happ buf hbufB) s hs
          · rw [if_neg h3] at hs
            rcases mem_dropLast_cons hs with ⟨_, h⟩ | h
            · subst h; exact hbufB
            · exact ih .inA [c] (by intro h; rcases h with h | h | h <;> cases h) s h
    -- inQ
    · have hbufB : buf.any isTermCh = true := hbuf (Or.inr (Or.inl rfl))
      by_cases h1 : isSpaceCh c
      · rw [if_pos h1] at hs
        exact ih .inW (buf ++ [c]) (fun _ => happ buf hbufB) s hs
      · rw [if_neg h1] at hs
        by_cases h2 : isTermCh c
        · rw [if_pos h2] at hs
          rcases mem_dropLast_cons hs with ⟨_, h⟩ | h
          · subst h; exact hbufB
          · exact ih .skip [] (by intro h; rcases h with h | h | h <;> cases h) s h
        · rw [if_neg h2] at hs
          rcases mem_dropLast_cons hs with ⟨_, h⟩ | h
          · subst h; exact hbufB
          · exact ih .inA [c] (by intro h; rcases h with h | h | h <;> cases h) s h
    -- inW
    · have hbufB : buf.any isTermCh = true := hbuf (Or.inr (Or.inr rfl))
      by_cases h1 : isSpaceCh c
      · rw [if_pos h1] at hs
        exact ih .inW (buf ++ [c]) (fun _ => happ buf hbufB) s hs
      · rw [if_neg h1] at hs
        by_cases h2 : isTermCh c
        · rw [if_pos h2] at hs
          rcases mem_dropLast_cons hs with ⟨_, h⟩ | h
          · subst h; exact hbufB
          · exact ih .skip [] (by intro h; rcases h with h | h | h <;> cases h) s h
        · rw [if_neg h2] at hs
          rcases mem_dropLast_cons hs with ⟨_, h⟩ | h
          · subst h; exact hbufB
          · exact ih .inA [c] (by intro h; rcases h with h | h | h <;> cases h) s h

/-- Every segment of `sentences text` except possibly the last contains a
terminal punctuation character. -/
theorem sentences_dropLast_term (text : List Char) :
    ∀ s ∈ (sentences text).dropLast, s.any isTermCh = true := by
  intro s hs
  unfold sentences at hs
  cases h : sentencesCore text with
  | nil =>
    rw [h] at hs
    simp [List.dropLast_single] at hs
  | cons a l =>
    rw [h] at hs
    apply sentencesGo_dropLast_term text .skip []
      (by intro h2; rcases h2 with h2 | h2 | h2 <;> cases h2)
    rw [sentencesCore] at h
    rw [h]
    exact hs

/-- A string containing a terminal punctuation character still does so, and
hence is non-empty, after a second trim. -/
theorem jsTrim_trim_ne_nil_of_term (s : List Char) (h : s.any isTermCh = true) :
    jsTrim (jsTrim s) ≠ [] := by
  rcases List.any_eq_true.mp h with ⟨c, hc, hterm⟩
  have hc2 : c ∈ jsTrim s := mem_jsTrim c s hc (isTermCh_not_space c hterm)
  exact jsTrim_ne_nil_of_term (jsTrim s) (List.any_eq_true.mpr ⟨c, hc2, hterm⟩)

/-- All chunks the loop flushes before its final one trim to a non-empty
string: such a chunk is flushed because a later segment exists, so it cannot
contain the (unique, final) unterminated segment and therefore holds terminal
punctuation, which trimming preserves. -/
theorem chunkLoop_dropLast_trim (limit : Nat) :
    ∀ (l : List (List Char)) (cur : List Char),
      (∀ s ∈ l, s ≠ []) →
      (∀ s ∈ l.dropLast, s.any isTermCh = true) →
      (l ≠ [] → cur = [] ∨ cur.any isTermCh = true) →
      ∀ c ∈ (chunkLoop limit l cur).dropLast, jsTrim c ≠ [] := by
  intro l
  induction l with
  | nil =>
    intro cur _ _ _ c hc
    rw [chunkLoop] at hc
    by_cases h : cur = []
    · rw [if_pos h] at hc
      exact absurd hc (List.not_mem_nil c)
    · rw [if_neg h] at hc
      rw [List.dropLast_single] at hc
      exact absurd hc (List.not_mem_nil c)
  | cons s rest ih =>
    intro cur hne hterm hcur0 c hc
    have hs : s ≠ [] := hne s (List.mem_cons_self s rest)
    have hcur : cur = [] ∨ cur.any isTermCh = true := hcur0 (by simp)
    rw [chunkLoop] at hc
    by_cases h1 : limit < cur.length + s.length
    · rw [if_pos h1] at hc
      by_cases hr : rest = []
      · subst hr
        rw [chunkLoop, if_neg hs] at hc
        by_cases h2 : cur = []
        · rw [if_pos h2] at hc
          rw [List.nil_append, List.dropLast_single] at hc
          exact absurd hc (List.not_mem_nil c)
        · rw [if_neg h2] at hc
          rw [List.dropLast_concat] at hc
          rw [List.mem_singleton] at hc
          subst hc
          rcases hcur with h3 | h3
          · exact absurd h3 h2
          · exact jsTrim_trim_ne_nil_of_term cur h3
      · have hb : chunkLoop limit rest s ≠ [] :=
          chunkLoop_ne_nil limit rest s
            (fun x hx => hne x (List.mem_cons_of_mem s hx)) hr
        rw [List.dropLast_append_of_ne_nil _ hb] at hc
        rcases List.mem_append.mp hc with h | h
        · by_cases h2 : cur = []
          · rw [if_pos h2] at h
            exact absurd h (List.not_mem_nil c)
          · rw [if_neg h2] at h
            rw [List.mem_singleton] at h
            subst h
            rcases hcur with h3 | h3
            · exact absurd h3 h2
            · exact jsTrim_trim_ne_nil_of_term cur h3
        · refine ih s (fun x hx => hne x (List.mem_cons_of_mem s hx)) ?_ ?_ c h
          · intro x hx
            refine hterm x ?_
            rw [List.dropLast_cons_of_ne_nil hr]
            exact List.mem_cons_of_mem s hx
          · intro _
            refine Or.inr (hterm s ?_)
            rw [List.dropLast_cons_of_ne_nil hr]
            exact List.mem_cons_self s _
    · rw [if_neg h1] at hc
      refine ih (cur ++ s) (fun x hx => hne x (List.mem_cons_of_mem s hx)) ?_ ?_ c hc
      · intro x hx
        have hr : rest ≠ [] := by
          intro h
          subst h
          exact absurd hx (List.not_mem_nil x)
        refine hterm x ?_
        rw [List.dropLast_cons_of_ne_nil hr]
        exact List.mem_cons_of_mem s hx
      · intro hr
        have hsterm : s.any isTermCh = true := by
          refine hterm s ?_
          rw [List.dropLast_cons_of_ne_nil hr]
          exact List.mem_cons_self s _
        refine Or.inr ?_
        rw [List.any_append, hsterm]
        simp

/-- CLAIM C7 counterexample.  A whitespace-only (hence non-empty) input of
length at least the limit yields the single chunk `""`, which is empty after
trimming although the input was not the empty string. -/
theorem smartSplit_whitespace_cex :
    smartSplit "   ".toList 2 = [[]] ∧ "   ".toList ≠ [] ∧ jsTrim [] = [] :=
  ⟨by decide, by decide, rfl⟩

/-- CLAIM C7 (amended).  Every element of `smartSplit text limit` other than
the last is non-empty after trimming; only the final chunk can trim to empty
(when the trailing unterminated segment of the text is whitespace-only, as in
the counterexample, or when the input was the empty string). -/
theorem smartSplit_dropLast_trim_ne :
    ∀ (text : List Char) (limit : Nat),
      ∀ c ∈ (smartSplit text limit).dropLast, jsTrim c ≠ [] := by
  intro text limit c hc
  unfold smartSplit at hc
  split_ifs at hc with h
  · rw [List.dropLast_single] at hc
    exact absurd hc (List.not_mem_nil c)
  · by_cases htext : text = []
    · subst htext
      have hlim : limit = 0 := by
        simp only [List.length_nil] at h
        omega
      subst hlim
      have hval : chunkLoop 0 (sentences []) [] = [] := rfl
      rw [hval] at hc
      exact absurd hc (List.not_mem_nil c)
    · exact chunkLoop_dropLast_trim limit (sentences text) []
        (sentences_elem_ne_nil text htext) (sentences_dropLast_term text)
        (fun _ => Or.inl rfl) c hc

/-- Witness for `smartSplit_dropLast_trim_ne` at a concrete input. -/
theorem smartSplit_dropLast_trim_ne_witness : jsTrim "Dd.".toList ≠ [] :=
  smartSplit_dropLast_trim_ne "Dd. Ee. Ff.".toList 4 "Dd.".toList (by decide)

/-- Errors thrown in the TypeScript sources (src/types/types.ts plus the
OpenAI client's `APIError` and plain JavaScript errors).  `apiError` is the
repository's own `APIError(statusCode, message)` class (its optional
structured `details` payload is not modeled — no claim depends on it);
`rateLimitError` is the `RateLimitError` subclass; `openAIError` is
`OpenAI.APIError` with its possibly-missing numeric `status`;
`undefinedThrown` stands for JavaScript throwing the value `undefined`. -/
inductive JsError where
  | apiError (statusCode : Nat) (message : String)
  | validationError (message : String)
  | rateLimitError (retryAfter : Option Nat)
  | openAIError (status : Option Nat) (message : String)
  | jsOther (message : String)
  | undefinedThrown
deriving DecidableEq

/-- Outcome of one invocation of a wrapped fallible operation. -/
inductive AttemptResult (α : Type) where
  | ok (a : α)
  | err (e : JsError)
deriving DecidableEq

/-- The non-retryable classification inside `retryWithBackoff`
(src/util/util.ts): `error instanceof OpenAI.APIError && error.status &&
error.status >= 400 && error.status < 500`.  `error.status &&` is JavaScript
truthiness, so a missing or zero status is not classified. -/
def nonRetryable : JsError → Bool
  | .openAIError (some s) _ => (s != 0) && decide (400 ≤ s) && decide (s < 500)
  | _ => false

/-- Result of a `retryWithBackoff` run, instrumented with the externally
observable behaviour: the returned or thrown outcome, the number of times the
operation was invoked, and the backoff delays awaited (in order). -/
structure RetryResult (α : Type) where
  result : Except JsError α
  calls : Nat
  delays : List Nat

/-- The retry loop of `retryWithBackoff` (src/util/util.ts):
`for (attempt = 0; attempt < maxRetries; attempt++)`.  `remaining` is the
number of loop iterations still available (`maxRetries - attempt`, so the
loop guard `attempt < maxRetries` is `remaining > 0`); `op` gives the outcome
of the attempt with each index, and `lastError` models the `lastError`
variable.  A success returns immediately; a non-retryable error (upstream
4xx) is re-thrown at once; any other failure waits `baseDelay * 2 ^ attempt`
when `attempt < maxRetries - 1`; after the loop the last error is thrown
(JavaScript throws the value `undefined` when the loop never ran). -/
def retryLoop {α : Type} (op : Nat → AttemptResult α) (maxRetries baseDelay : Nat) :
    Nat → Nat → Option JsError → RetryResult α
  | 0, _, lastError =>
    match lastError with
    | some e => ⟨.error e, 0, []⟩
    | none => ⟨.error .undefinedThrown, 0, []⟩
  | remaining + 1, attempt, lastError =>
    match op attempt with
    | .ok a => ⟨.ok a, 1, []⟩
    | .err e =>
      if nonRetryable e then ⟨.error e, 1, []⟩
      else
        let rest := retryLoop op maxRetries baseDelay remaining (attempt + 1) (some e)
        if attempt < maxRetries - 1 then
          ⟨rest.result, rest.calls + 1, baseDelay * 2 ^ attempt :: rest.delays⟩
        else
          ⟨rest.result, rest.calls + 1, rest.delays⟩

/-- `retryWithBackoff(operation, maxRetries, baseDelay)` from
src/util/util.ts (the source defaults are `maxRetries = 3`,
`baseDelay = 1000`). -/
def retryWithBackoff {α : Type} (op : Nat → AttemptResult α)
    (maxRetries baseDelay : Nat) : RetryResult α :=
  retryLoop op maxRetries baseDelay maxRetries 0 none

/-- Generalized form of the 4xx short-circuit: if attempts `attempt ..
attempt + k - 1` fail retryably and attempt `attempt + k` fails with a
non-retryable error, the loop re-throws that error after exactly `k + 1`
invocations and only the `k` delays of the earlier attempts. -/
theorem retryLoop_client_error {α : Type} (op : Nat → AttemptResult α)
    (maxRetries baseDelay : Nat) (e : JsError) :
    ∀ (k attempt remaining : Nat) (lastError : Option JsError),
      attempt + remaining = maxRetries →
      (∀ j, j < k → ∃ ej, op (attempt + j) = .err ej ∧ nonRetryable ej = false) →
      attempt + k < maxRetries →
      op (attempt + k) = .err e →
      nonRetryable e = true →
      (retryLoop op maxRetries baseDelay remaining attempt lastError).result = .error e ∧
        (retryLoop op maxRetries baseDelay remaining attempt lastError).calls = k + 1 ∧
        (retryLoop op maxRetries baseDelay remaining attempt lastError).delays.length = k := by
  intro k
  induction k with
  | zero =>
    intro attempt remaining lastError hrem _ hlt hop hnr
    rw [Nat.add_zero] at hlt hop
    cases remaining with
    | zero => omega
    | succ r =>
      simp only [retryLoop, hop, hnr, if_true]
      exact ⟨trivial, trivial, rfl⟩
  | succ k ih =>
    intro attempt remaining lastError hrem hprev hlt hop hnr
    obtain ⟨e0, hop0, hnr0⟩ := hprev 0 (Nat.succ_pos k)
    rw [Nat.add_zero] at hop0
    cases remaining with
    | zero => omega
    | succ r =>
      have hlt1 : attempt < maxRetries - 1 := by omega
      have ih2 := ih (attempt + 1) r (some e0) (by omega)
        (fun j hj => by
          obtain ⟨ej, h1, h2⟩ := hprev (j + 1) (by omega)
          exact ⟨ej, by rwa [show attempt + (j + 1) = attempt + 1 + j by omega] at h1, h2⟩)
        (by omega)
        (by rwa [show attempt + 1 + k = attempt + (k + 1) by omega])
        hnr
      simp only [retryLoop, hop0, hnr0, Bool.false_eq_true, if_false, if_pos hlt1]
      refine ⟨ih2.1, by rw [ih2.2.1], by simp [ih2.2.2]⟩

/-- CLAIM C4 (confirmed).  For every wrapped operation and `maxAttempts ≥ 1`:
when the attempt with index `k` fails with an upstream-service error carrying
an HTTP-like status in 400–499 (after any earlier retryable failures), that
error is re-raised immediately — the result is that error, exactly `k + 1`
invocations were made (no further attempts), and only the `k` delays of the
earlier attempts were awaited (no delay for the failing attempt) — regardless
of how many attempts remain. -/
theorem retryWithBackoff_client_error {α : Type} (op : Nat → AttemptResult α)
    (maxAttempts baseDelay k : Nat) (s : Nat) (msg : String)
    (hprev : ∀ j, j < k → ∃ ej, op j = .err ej ∧ nonRetryable ej = false)
    (hk : k < maxAttempts)
    (hop : op k = .err (.openAIError (some s) msg))
    (hs : 400 ≤ s ∧ s < 500) :
    (retryWithBackoff op maxAttempts baseDelay).result =
        .error (.openAIError (some s) msg) ∧
      (retryWithBackoff op maxAttempts baseDelay).calls = k + 1 ∧
      (retryWithBackoff op maxAttempts baseDelay).delays.length = k := by
  have hnr : nonRetryable (.openAIError (some s) msg) = true := by
    simp only [nonRetryable, Bool.and_eq_true, bne_iff_ne, decide_eq_true_eq]
    omega
  exact retryLoop_client_error op maxAttempts baseDelay _ k 0 maxAttempts none
    (by omega) (fun j hj => by simpa using hprev j hj)
    (by omega) (by simpa using hop) hnr

/-- Witness for `retryWithBackoff_client_error` at a concrete input: a 404 on
the very first attempt, with two attempts remaining, is re-raised after one
invocation and no delay. -/
theorem retryWithBackoff_client_error_witness :
    (retryWithBackoff (fun _ => AttemptResult.err
          (JsError.openAIError (some 404) "Not Found") : Nat → AttemptResult Nat)
        3 1000).result = .error (JsError.openAIError (some 404) "Not Found") ∧
      (retryWithBackoff (fun _ => AttemptResult.err
          (JsError.openAIError (some 404) "Not Found") : Nat → AttemptResult Nat)
        3 1000).calls = 1 ∧
      (retryWithBackoff (fun _ => AttemptResult.err
          (JsError.openAIError (some 404) "Not Found") : Nat → AttemptResult Nat)
        3 1000).delays.length = 0 :=
  retryWithBackoff_client_error _ 3 1000 0 404 "Not Found"
    (fun j hj => absurd hj (Nat.not_lt_zero j)) (by omega) rfl (by omega)

/-- `SessionManager` (src/controllers/SessionManager.ts): the set of active
session IDs, modeled as the insertion-ordered duplicate-free element list of
the JavaScript `Set`. -/
structure SessionManager where
  activeSessions : List String
deriving DecidableEq

/-- `isActive(sessionId)`: membership in the active set. -/
def SessionManager.isActive (sm : SessionManager) (sessionId : String) : Bool :=
  sm.activeSessions.contains sessionId

/-- `addSession(sessionId)`: `Set.add` — a no-op on a member, otherwise
appended in insertion order. -/
def SessionManager.addSession (sm : SessionManager) (sessionId : String) :
    SessionManager :=
  if sm.activeSessions.contains sessionId then sm
  else ⟨sm.activeSessions ++ [sessionId]⟩

/-- `removeSession(sessionId)`: `Set.delete`. -/
def SessionManager.removeSession (sm : SessionManager) (sessionId : String) :
    SessionManager :=
  ⟨sm.activeSessions.filter (fun x => x != sessionId)⟩

/-- `getAllActiveSessions()`: `Array.from(activeSessions)`. -/
def SessionManager.getAllActiveSessions (sm : SessionManager) : List String :=
  sm.activeSessions

/-- Payload of one outbound `tts_audio` WebSocket message (`audioData` is the
base64-encoded buffer; the emission timestamp is not modeled — no claim
depends on it). -/
structure AudioMsg where
  audioData : String
  chunkIndex : Nat
  totalChunks : Nat
  isLast : Bool
deriving DecidableEq

/-- An outbound WebSocket message of the pipeline: a `tts_audio` chunk or an
`error` message with numeric code and human-readable text (the optional
structured `details` payload and the timestamp are not modeled). -/
inductive OutMsg where
  | audioChunk (d : AudioMsg)
  | errorMsg (code : Nat) (message : String)
deriving DecidableEq

/-- Oracles fixing the environment of one `processChain` run:
`chatContent` is the outcome of the `ai.chat.completions.create` await
(either a thrown error or the optional `choices[0]?.message?.content`
string); `ttsOutcome i` is the outcome of synthesizing chunk `i`
(`ai.audio.speech.create` plus `arrayBuffer`: a thrown error or the
base64-encoded audio); `sendOk k` is the outcome of the run's `k`-th
`connectionManager.send` call (`false` covers a missing or non-OPEN socket
and a thrown send, both caught and returned as `false`); `events t` is the
external connection-layer mutation of the session registry occurring at the
run's `t`-th `await` suspension point (the single-threaded cooperative
runtime lets the registry change only at suspension points). -/
structure Upstream where
  chatContent : Except JsError (Option (List Char))
  ttsOutcome : Nat → Except JsError String
  sendOk : Nat → Bool
  events : Nat → SessionManager → SessionManager

/-- State threaded through one pipeline run: the session registry, the count
`t` of suspension points passed, the count of `connectionManager.send` calls
made, and the outbound messages successfully handed to the transport. -/
structure RunState where
  sm : SessionManager
  t : Nat
  sends : Nat
  out : List OutMsg
deriving DecidableEq

/-- Run state at pipeline entry. -/
def initState (sm : SessionManager) : RunState := ⟨sm, 0, 0, []⟩

/-- Passing an `await` suspension point: the external events fire against the
registry and time advances. -/
def suspend (env : Upstream) (st : RunState) : RunState :=
  { st with sm := env.events st.t st.sm, t := st.t + 1 }

/-- JavaScript `status || 500` on the optional numeric status of an
`OpenAI.APIError` (a missing or zero status is falsy). -/
def statusOr500 : Option Nat → Nat
  | some s => if s = 0 then 500 else s
  | none => 500

/-- `getChatCompletion` (src/services/OpenAIService.ts): extract
`choices[0]?.message?.content?.trim()`; throw `APIError(500, "Empty response
from LLM")` when the content is missing or trims to empty; re-wrap a thrown
`OpenAI.APIError` as `APIError(status || 500, message)` and re-throw anything
else unchanged.  The `await` on the upstream call is accounted for by the
caller, which suspends before consulting the outcome. -/
def getChatCompletion (env : Upstream) : Except JsError (List Char) :=
  match env.chatContent with
  | .error e =>
    match e with
    | .openAIError s m => .error (.apiError (statusOr500 s) m)
    | _ => .error e
  | .ok none => .error (.apiError 500 "Empty response from LLM")
  | .ok (some raw) =>
    let content := jsTrim raw
    if content = [] then .error (.apiError 500 "Empty response from LLM")
    else .ok content

/-- View an `Except` outcome as an attempt outcome for the retrier. -/
def toAttempt {α : Type} : Except JsError α → AttemptResult α
  | .ok a => .ok a
  | .error e => .err e

/-- The result of `retryWithBackoff(op, 1, 1000)` as `processChain` uses it:
with `maxRetries = 1` the operation runs exactly once and the retrier
returns or re-throws that single outcome (`retryOnce_eq`). -/
def retryOnce {α : Type} (r : Except JsError α) : Except JsError α :=
  (retryWithBackoff (fun _ => toAttempt r) 1 1000).result

/-- With a single attempt the retrier is the identity on the outcome. -/
theorem retryOnce_eq {α : Type} (r : Except JsError α) : retryOnce r = r := by
  cases r with
  | ok a => rfl
  | error e =>
    show (retryLoop (fun _ => toAttempt (Except.error e)) 1 1000 1 0 none).result = _
    by_cases h : nonRetryable e
    · simp [retryLoop, toAttempt, h]
    · simp [retryLoop, toAttempt, h]

/-- `sendToWebSocket` (src/services/OpenAIService.ts): refuse to send when
the session is not active; otherwise call `connectionManager.send`, whose
outcome is the `sendOk` oracle at the run's current send index.  Messages
handed off successfully are appended to `out`. -/
def sendToWebSocket (env : Upstream) (sessionId : String) (msg : OutMsg)
    (st : RunState) : Bool × RunState :=
  if !(st.sm.isActive sessionId) then (false, st)
  else
    let ok := env.sendOk st.sends
    (ok, { st with sends := st.sends + 1,
                   out := if ok then st.out ++ [msg] else st.out })

/-- The error classification of `handleError`
(src/services/OpenAIService.ts), in source order: `ValidationError`,
`RateLimitError`, `APIError`, `OpenAI.APIError`, anything else. -/
def classifyError : JsError → Nat × String
  | .validationError m => (400, "Validation error: " ++ m)
  | .rateLimitError _ => (429, "Rate limit exceeded. Please try again later.")
  | .apiError c m => (c, m)
  | .openAIError s m => (statusOr500 s, "OpenAI API error: " ++ m)
  | .jsOther _ => (500, "An unexpected error occurred")
  | .undefinedThrown => (500, "An unexpected error occurred")

/-- `handleError` (src/services/OpenAIService.ts): classify the failure and
best-effort send a single error message; the boolean outcome of the send is
discarded. -/
def handleError (env : Upstream) (e : JsError) (sessionId : String)
    (st : RunState) : RunState :=
  (sendToWebSocket env sessionId
    (.errorMsg (classifyError e).1 (classifyError e).2) st).2

/-- The per-chunk loop of `getTTSAudioStream`: before each chunk re-check
session activity (the cooperative cancellation boundary) and break when
inactive; synthesize the chunk (one suspension point for the `speech.create`
await and, on success, one more for the `arrayBuffer` await; the chunk's text
is absorbed by the `ttsOutcome` oracle); build the `tts_audio` message with
`isLast: i === chunks.length - 1` and attempt delivery; break on delivery
failure; the inner catch re-throws a synthesis failure.  `total` is
`chunks.length` and `i` the current index. -/
def ttsLoop (env : Upstream) (sessionId : String) (total : Nat) :
    List (List Char) → Nat → RunState → Except JsError Unit × RunState
  | [], _, st => (.ok (), st)
  | _chunk :: rest, i, st =>
    if !(st.sm.isActive sessionId) then (.ok (), st)
    else
      let st1 := suspend env st
      match env.ttsOutcome i with
      | .error e => (.error e, st1)
      | .ok audioB64 =>
        let st2 := suspend env st1
        let msg := OutMsg.audioChunk ⟨audioB64, i, total, decide (i = total - 1)⟩
        let res := sendToWebSocket env sessionId msg st2
        if res.1 then ttsLoop env sessionId total rest (i + 1) res.2
        else (.ok (), res.2)

/-- `DEFAULT_MAX_TTS_CHARS` (src/services/OpenAIService.ts). -/
def DEFAULT_MAX_TTS_CHARS : Nat := 4096

/-- `getTTSAudioStream` (src/services/OpenAIService.ts): split the text with
the chunker at the fixed limit, stream the chunks, and re-wrap a thrown
`OpenAI.APIError` as `APIError(status || 500, message)`. -/
def getTTSAudioStream (env : Upstream) (text : List Char) (sessionId : String)
    (st : RunState) : Except JsError Unit × RunState :=
  let chunks := smartSplit text DEFAULT_MAX_TTS_CHARS
  let res := ttsLoop env sessionId chunks.length chunks 0 st
  match res.1 with
  | .error (.openAIError s m) => (.error (.apiError (statusOr500 s) m), res.2)
  | r => (r, res.2)

/-- A role-tagged message of a completion request. -/
structure ChatMessage where
  role : String
  content : List Char
deriving DecidableEq

/-- A chat completion request (src/types/types.ts); the optional model and
sampling parameters are omitted — the upstream outcome oracle absorbs them. -/
structure ChatCompletionRequest where
  messages : List ChatMessage
deriving DecidableEq

/-- A TTS request (src/types/types.ts); the optional model, format and speed
selectors are omitted — the upstream outcome oracle absorbs them. -/
structure TTSRequest where
  input : List Char
  voice : Option String
deriving DecidableEq

/-- `processChain` (src/services/OpenAIService.ts).  The whole body is a
`try`/`catch` whose catch clause is `handleError`, so the function never
raises to its caller: every failure path below routes into `handleError`
instead of propagating.  `chatRequest`, `ttsOptions` and the unused
`timeoutMs` do not influence the orchestration: the upstream outcomes are
fixed by the oracle for this run, and the source's
`ttsOptions.input = responseText` mutation is unobservable because
`getTTSAudioStream` reads its `text` parameter.  Both upstream calls go
through `retryWithBackoff(op, 1, 1000)`; with `maxRetries = 1` the wrapped
operation runs exactly once, so its single outcome is routed through
`retryOnce` (see `retryOnce_eq`). -/
def processChain (env : Upstream) (chatRequest : ChatCompletionRequest)
    (ttsOptions : TTSRequest) (sessionId : String) (timeoutMs : Option Nat)
    (st : RunState) : RunState :=
  if !(st.sm.isActive sessionId) then
    handleError env (.apiError 400 "Session is not active") sessionId st
  else
    let st1 := suspend env st
    match retryOnce (getChatCompletion env) with
    | .error e => handleError env e sessionId st1
    | .ok responseText =>
      if jsTrim responseText = [] then
        handleError env (.apiError 500 "Empty response from chat completion")
          sessionId st1
      else
        let res := getTTSAudioStream env responseText sessionId st1
        match retryOnce res.1 with
        | .error e => handleError env e sessionId res.2
        | .ok _ => res.2

/-- Outbound error messages, for counting. -/
def isErrorMsg : OutMsg → Bool
  | .errorMsg _ _ => true
  | .audioChunk _ => false

/-- The audio chunk messages among the outbound messages, in emission
order. -/
def audioMsgs (out : List OutMsg) : List AudioMsg :=
  out.filterMap fun m =>
    match m with
    | .audioChunk d => some d
    | .errorMsg _ _ => none

/-- A send either leaves `out` unchanged or appends exactly its message. -/
theorem sendToWebSocket_out (env : Upstream) (sessionId : String) (msg : OutMsg)
    (st : RunState) :
    (sendToWebSocket env sessionId msg st).2.out = st.out ∨
      (sendToWebSocket env sessionId msg st).2.out = st.out ++ [msg] := by
  unfold sendToWebSocket
  by_cases h : !(st.sm.isActive sessionId)
  · rw [if_pos h]
    exact Or.inl rfl
  · rw [if_neg h]
    by_cases hk : env.sendOk st.sends
    · refine Or.inr ?_
      show (if env.sendOk st.sends then st.out ++ [msg] else st.out) = st.out ++ [msg]
      rw [if_pos hk]
    · refine Or.inl ?_
      show (if env.sendOk st.sends then st.out ++ [msg] else st.out) = st.out
      rw [if_neg hk]

/-- A send leaves the registry and the suspension counter unchanged. -/
theorem sendToWebSocket_sm_t (env : Upstream) (sessionId : String) (msg : OutMsg)
    (st : RunState) :
    (sendToWebSocket env sessionId msg st).2.sm = st.sm ∧
      (sendToWebSocket env sessionId msg st).2.t = st.t := by
  unfold sendToWebSocket
  by_cases h : !(st.sm.isActive sessionId)
  · rw [if_pos h]
    exact ⟨rfl, rfl⟩
  · rw [if_neg h]
    exact ⟨rfl, rfl⟩

/-- `handleError` emits at most one (error) message. -/
theorem handleError_countP (env : Upstream) (e : JsError) (sessionId : String)
    (st : RunState) :
    ((handleError env e sessionId st).out.countP isErrorMsg) ≤
      st.out.countP isErrorMsg + 1 := by
  rw [handleError]
  rcases sendToWebSocket_out env sessionId
      (.errorMsg (classifyError e).1 (classifyError e).2) st with h | h <;> rw [h]
  · omega
  · rw [List.countP_append]
    simp [List.countP_cons, isErrorMsg]

/-- The TTS loop emits no error messages. -/
theorem ttsLoop_countP (env : Upstream) (sessionId : String) (total : Nat) :
    ∀ (chunks : List (List Char)) (i : Nat) (st : RunState),
      ((ttsLoop env sessionId total chunks i st).2.out.countP isErrorMsg) =
        st.out.countP isErrorMsg := by
  intro chunks
  induction chunks with
  | nil => intro i st; rfl
  | cons c rest ih =>
    intro i st
    rw [ttsLoop]
    by_cases h : !(st.sm.isActive sessionId)
    · rw [if_pos h]
    · rw [if_neg h]
      cases hts : env.ttsOutcome i with
      | error e => rfl
      | ok audioB64 =>
        simp only
        have hsend := sendToWebSocket_out env sessionId
          (OutMsg.audioChunk ⟨audioB64, i, total, decide (i = total - 1)⟩)
          (suspend env (suspend env st))
        by_cases hok : (sendToWebSocket env sessionId
            (OutMsg.audioChunk ⟨audioB64, i, total, decide (i = total - 1)⟩)
            (suspend env (suspend env st))).1
      
        · rw [if_pos hok, ih]
          rcases hsend with h2 | h2 <;> rw [h2]
          · rfl
          · simp [List.countP_append, List.countP_cons, isErrorMsg, suspend]
        · rw [if_neg hok]
          rcases hsend with h2 | h2 <;> rw [h2]
          · rfl
          · simp [List.countP_append, List.countP_cons, isErrorMsg, suspend]

/-- The state returned by `getTTSAudioStream` is the loop's final state (the
error re-wrap touches only the thrown value). -/
theorem getTTSAudioStream_state (env : Upstream) (text : List Char)
    (sessionId : String) (st : RunState) :
    (getTTSAudioStream env text sessionId st).2 =
      (ttsLoop env sessionId (smartSplit text DEFAULT_MAX_TTS_CHARS).length
        (smartSplit text DEFAULT_MAX_TTS_CHARS) 0 st).2 := by
  unfold getTTSAudioStream
  dsimp only
  split <;> rfl

/-- CLAIM C1 (confirmed).  In this embedding `processChain` returns a plain
`RunState` — every failure path of the source's top-level `try`/`catch`
routes into `handleError` rather than propagating, so the function never
raises to its caller — and each run hands the transport at most one outbound
error message. -/
theorem processChain_single_error :
    ∀ (env : Upstream) (chatRequest : ChatCompletionRequest)
      (ttsOptions : TTSRequest) (sessionId : String) (timeoutMs : Option Nat)
      (sm0 : SessionManager),
      ((processChain env chatRequest ttsOptions sessionId timeoutMs
          (initState sm0)).out.countP isErrorMsg) ≤ 1 := by
  intro env cr ttso sid tmo sm0
  rw [processChain]
  dsimp only
  by_cases ha : !((initState sm0).sm.isActive sid)
  · rw [if_pos ha]
    have h := handleError_countP env (.apiError 400 "Session is not active")
      sid (initState sm0)
    have h0 : ((initState sm0).out.countP isErrorMsg) = 0 := rfl
    omega
  · rw [if_neg ha]
    simp only [retryOnce_eq]
    have h1 : ((suspend env (initState sm0)).out.countP isErrorMsg) = 0 := rfl
    cases hc : getChatCompletion env with
    | error e =>
      dsimp only
      have h := handleError_countP env e sid (suspend env (initState sm0))
      omega
    | ok rt =>
      dsimp only
      by_cases hrt : jsTrim rt = []
      · rw [if_pos hrt]
        have h := handleError_countP env
          (.apiError 500 "Empty response from chat completion") sid
          (suspend env (initState sm0))
        omega
      · rw [if_neg hrt]
        have hst : ((getTTSAudioStream env rt sid
            (suspend env (initState sm0))).2.out.countP isErrorMsg) = 0 := by
          rw [getTTSAudioStream_state, ttsLoop_countP]
          exact h1
        cases hr : (getTTSAudioStream env rt sid (suspend env (initState sm0))).1 with
        | error e =>
          dsimp only
          have h := handleError_countP env e sid
            (getTTSAudioStream env rt sid (suspend env (initState sm0))).2
          omega
        | ok u =>
          dsimp only
          omega

/-- CLAIM C3 (confirmed).  A session identifier never added to the registry
(the empty registry) or already removed is inactive, and invoking
`processChain` for an inactive session is a silent no-op: the run state —
registry, suspension counter, send counter and outbound messages — is
returned unchanged, so no audio chunk and no error message is handed to the
transport, and (by the embedding's total result type) nothing is raised.  The
inactivity check and the error send both happen before any suspension point,
and the error send refuses to deliver to the inactive session. -/
theorem processChain_inactive_noop :
    (∀ sessionId : String, (SessionManager.mk []).isActive sessionId = false) ∧
      (∀ (sm : SessionManager) (sessionId : String),
        (sm.removeSession sessionId).isActive sessionId = false) ∧
      ∀ (env : Upstream) (chatRequest : ChatCompletionRequest)
        (ttsOptions : TTSRequest) (sessionId : String) (timeoutMs : Option Nat)
        (sm0 : SessionManager),
        sm0.isActive sessionId = false →
        processChain env chatRequest ttsOptions sessionId timeoutMs
            (initState sm0) = initState sm0 := by
  refine ⟨fun sessionId => rfl, fun sm sessionId => ?_, ?_⟩
  · show (sm.activeSessions.filter (fun x => x != sessionId)).contains sessionId = false
    simp
  · intro env cr ttso sid tmo sm0 h
    have hact : (!((initState sm0).sm.isActive sid)) = true := by
      show (!(sm0.isActive sid)) = true
      rw [h]
      rfl
    rw [processChain, if_pos hact, handleError, sendToWebSocket, if_pos hact]

/-- Witness for `processChain_inactive_noop` at a concrete inactive session. -/
theorem processChain_inactive_noop_witness :
    processChain
        ⟨.ok (some "Hi there.".toList), fun _ => .ok "QUJD", fun _ => true,
          fun _ sm => sm⟩
        ⟨[]⟩ ⟨[], none⟩ "s" none (initState ⟨["other"]⟩) =
      initState ⟨["other"]⟩ :=
  processChain_inactive_noop.2.2 _ ⟨[]⟩ ⟨[], none⟩ "s" none ⟨["other"]⟩ (by decide)

/-- Composition of the external session-registry mutations over the
suspension points `t, t + 1, ..., t + n - 1`. -/
def applyEvents (env : Upstream) : Nat → Nat → SessionManager → SessionManager
  | _, 0, sm => sm
  | t, n + 1, sm => applyEvents env (t + 1) n (env.events t sm)

/-- Peeling the last event off an event composition. -/
theorem applyEvents_succ_right (env : Upstream) :
    ∀ (n t : Nat) (sm : SessionManager),
      applyEvents env t (n + 1) sm =
        env.events (t + n) (applyEvents env t n sm) := by
  intro n
  induction n with
  | zero => intro t sm; rfl
  | succ n ih =>
    intro t sm
    rw [applyEvents, ih (t + 1) (env.events t sm)]
    rw [show t + 1 + n = t + (n + 1) by omega]
    rfl

/-- Identity events compose to the identity. -/
theorem applyEvents_id (env : Upstream) (hid : ∀ t sm, env.events t sm = sm) :
    ∀ (n t : Nat) (sm : SessionManager), applyEvents env t n sm = sm := by
  intro n
  induction n with
  | zero => intro t sm; rfl
  | succ n ih =>
    intro t sm
    rw [applyEvents, hid, ih]

/-- The run state's registry is always the initial registry transformed by
exactly the external events of the suspension points passed so far. -/
def Tracks (env : Upstream) (sm0 : SessionManager) (st : RunState) : Prop :=
  st.sm = applyEvents env 0 st.t sm0

/-- Passing a suspension point preserves the tracking invariant. -/
theorem suspend_tracks (env : Upstream) (sm0 : SessionManager) (st : RunState)
    (h : Tracks env sm0 st) : Tracks env sm0 (suspend env st) := by
  unfold Tracks suspend at *
  dsimp only
  rw [applyEvents_succ_right env st.t 0 sm0, Nat.zero_add, h]

/-- A send preserves the tracking invariant (registry and time unchanged). -/
theorem sendToWebSocket_tracks (env : Upstream) (sm0 : SessionManager)
    (sessionId : String) (msg : OutMsg) (st : RunState)
    (h : Tracks env sm0 st) :
    Tracks env sm0 (sendToWebSocket env sessionId msg st).2 := by
  unfold Tracks
  rcases sendToWebSocket_sm_t env sessionId msg st with ⟨h1, h2⟩
  rw [h1, h2]
  exact h

/-- `handleError` preserves the tracking invariant. -/
theorem handleError_tracks (env : Upstream) (sm0 : SessionManager) (e : JsError)
    (sessionId : String) (st : RunState) (h : Tracks env sm0 st) :
    Tracks env sm0 (handleError env e sessionId st) :=
  sendToWebSocket_tracks env sm0 sessionId _ st h

/-- The TTS loop preserves the tracking invariant. -/
theorem ttsLoop_tracks (env : Upstream) (sm0 : SessionManager)
    (sessionId : String) (total : Nat) :
    ∀ (chunks : List (List Char)) (i : Nat) (st : RunState),
      Tracks env sm0 st →
      Tracks env sm0 (ttsLoop env sessionId total chunks i st).2 := by
  intro chunks
  induction chunks with
  | nil => intro i st h; exact h
  | cons c rest ih =>
    intro i st h
    rw [ttsLoop]
    by_cases ha : !(st.sm.isActive sessionId)
    · rw [if_pos ha]
      exact h
    · rw [if_neg ha]
      cases hts : env.ttsOutcome i with
      | error e => exact suspend_tracks env sm0 st h
      | ok audioB64 =>
        dsimp only
        have h2 : Tracks env sm0 (suspend env (suspend env st)) :=
          suspend_tracks env sm0 _ (suspend_tracks env sm0 st h)
        have h3 := sendToWebSocket_tracks env sm0 sessionId
          (OutMsg.audioChunk ⟨audioB64, i, total, decide (i = total - 1)⟩)
          (suspend env (suspend env st)) h2
        by_cases hok : (sendToWebSocket env sessionId
            (OutMsg.audioChunk ⟨audioB64, i, total, decide (i = total - 1)⟩)
            (suspend env (suspend env st))).1
        · rw [if_pos hok]
          exact ih (i + 1) _ h3
        · rw [if_neg hok]
          exact h3

/-- CLAIM C9 (confirmed).  Whatever way a run ends — normal completion,
cancellation, delivery failure, or error reporting — `processChain` leaves
the session registry exactly as the external connection-layer events
transformed it: the pipeline itself only reads activity via `isActive` and
never adds or removes a session.  In particular, with no external events the
registry is returned unchanged. -/
theorem processChain_registry_frame :
    ∀ (env : Upstream) (chatRequest : ChatCompletionRequest)
      (ttsOptions : TTSRequest) (sessionId : String) (timeoutMs : Option Nat)
      (sm0 : SessionManager),
      (processChain env chatRequest ttsOptions sessionId timeoutMs
            (initState sm0)).sm =
          applyEvents env 0
            (processChain env chatRequest ttsOptions sessionId timeoutMs
              (initState sm0)).t sm0 ∧
        ((∀ t sm, env.events t sm = sm) →
          (processChain env chatRequest ttsOptions sessionId timeoutMs
              (initState sm0)).sm = sm0) := by
  intro env cr ttso sid tmo sm0
  have htrack : Tracks env sm0 (processChain env cr ttso sid tmo (initState sm0)) := by
    rw [processChain]
    dsimp only
    have h0 : Tracks env sm0 (initState sm0) := rfl
    by_cases ha : !((initState sm0).sm.isActive sid)
    · rw [if_pos ha]
      exact handleError_tracks env sm0 _ sid _ h0
    · rw [if_neg ha]
      simp only [retryOnce_eq]
      have h1 : Tracks env sm0 (suspend env (initState sm0)) :=
        suspend_tracks env sm0 _ h0
      cases hc : getChatCompletion env with
      | error e =>
        dsimp only
        exact handleError_tracks env sm0 e sid _ h1
      | ok rt =>
        dsimp only
        by_cases hrt : jsTrim rt = []
        · rw [if_pos hrt]
          exact handleError_tracks env sm0 _ sid _ h1
        · rw [if_neg hrt]
          have h2 : Tracks env sm0
              (getTTSAudioStream env rt sid (suspend env (initState sm0))).2 := by
            rw [getTTSAudioStream_state]
            exact ttsLoop_tracks env sm0 sid _ _ 0 _ h1
          cases hr : (getTTSAudioStream env rt sid (suspend env (initState sm0))).1 with
          | error e =>
            dsimp only
            exact handleError_tracks env sm0 e sid _ h2
          | ok u =>
            dsimp only
            exact h2
  refine ⟨htrack, fun hid => ?_⟩
  rw [htrack, applyEvents_id env hid]

/-- Witness for `processChain_registry_frame` with identity events: the
registry is returned unchanged. -/
theorem processChain_registry_frame_witness :
    (processChain
        ⟨.ok (some "Hi there.".toList), fun _ => .ok "QUJD", fun _ => true,
          fun _ sm => sm⟩
        ⟨[]⟩ ⟨[], none⟩ "s" none (initState ⟨["s"]⟩)).sm = ⟨["s"]⟩ :=
  (processChain_registry_frame _ ⟨[]⟩ ⟨[], none⟩ "s" none ⟨["s"]⟩).2
    (fun _ _ => rfl)

/-- The audio payload carried by a successful synthesis outcome. -/
def okValue : Except JsError String → String
  | .ok a => a
  | .error _ => ""

/-- The `tts_audio` message the loop emits for chunk `j` of `total` under a
given environment: payload from the synthesis oracle, zero-based index,
total count, and `isLast` exactly at the final index. -/
def chunkMsgOf (env : Upstream) (total j : Nat) : AudioMsg :=
  ⟨okValue (env.ttsOutcome j), j, total, decide (j = total - 1)⟩

/-- `audioMsgs` distributes over append. -/
theorem audioMsgs_append (a b : List OutMsg) :
    audioMsgs (a ++ b) = audioMsgs a ++ audioMsgs b := by
  unfold audioMsgs
  rw [List.filterMap_append]

/-- `audioMsgs` extracts a mapped chunk list. -/
theorem audioMsgs_map_chunk (g : Nat → AudioMsg) (l : List Nat) :
    audioMsgs (l.map (fun j => OutMsg.audioChunk (g j))) = l.map g := by
  induction l with
  | nil => rfl
  | cons j js ih =>
    unfold audioMsgs at ih ⊢
    simp only [List.map_cons, List.filterMap_cons]
    rw [ih]

/-- A successful send appends exactly its message. -/
theorem sendToWebSocket_true_out (env : Upstream) (sessionId : String)
    (msg : OutMsg) (st : RunState)
    (h : (sendToWebSocket env sessionId msg st).1 = true) :
    (sendToWebSocket env sessionId msg st).2.out = st.out ++ [msg] := by
  unfold sendToWebSocket at *
  by_cases ha : !(st.sm.isActive sessionId)
  · rw [if_pos ha] at h
    cases h
  · rw [if_neg ha] at h ⊢
    show (if env.sendOk st.sends then st.out ++ [msg] else st.out) = st.out ++ [msg]
    have hk : env.sendOk st.sends = true := h
    rw [if_pos hk]

/-- A failed send leaves `out` unchanged. -/
theorem sendToWebSocket_false_out (env : Upstream) (sessionId : String)
    (msg : OutMsg) (st : RunState)
    (h : (sendToWebSocket env sessionId msg st).1 = false) :
    (sendToWebSocket env sessionId msg st).2.out = st.out := by
  unfold sendToWebSocket at *
  by_cases ha : !(st.sm.isActive sessionId)
  · rw [if_pos ha]
  · rw [if_neg ha] at h ⊢
    show (if env.sendOk st.sends then st.out ++ [msg] else st.out) = st.out
    have hk : env.sendOk st.sends = false := h
    rw [hk]
    simp

/-- Canonical form of the loop's emissions: some prefix of the chunk list is
delivered, as the messages for the consecutive indices `i, i+1, ...`. -/
theorem ttsLoop_out (env : Upstream) (sessionId : String) (total : Nat) :
    ∀ (chunks : List (List Char)) (i : Nat) (st : RunState),
      ∃ k, k ≤ chunks.length ∧
        (ttsLoop env sessionId total chunks i st).2.out =
          st.out ++ (List.range' i k).map
            (fun j => OutMsg.audioChunk (chunkMsgOf env total j)) := by
  intro chunks
  induction chunks with
  | nil =>
    intro i st
    exact ⟨0, Nat.le_refl 0, by simp [ttsLoop]⟩
  | cons c rest ih =>
    intro i st
    rw [ttsLoop]
    by_cases ha : !(st.sm.isActive sessionId)
    · rw [if_pos ha]
      exact ⟨0, Nat.zero_le _, by simp⟩
    · rw [if_neg ha]
      cases hts : env.ttsOutcome i with
      | error e =>
        exact ⟨0, Nat.zero_le _, by simp [suspend]⟩
      | ok audioB64 =>
        dsimp only
        set st2 := suspend env (suspend env st) with hst2
        set msg := OutMsg.audioChunk ⟨audioB64, i, total, decide (i = total - 1)⟩ with hmsg
        have hmsg2 : msg = OutMsg.audioChunk (chunkMsgOf env total i) := by
          rw [hmsg, chunkMsgOf, show okValue (env.ttsOutcome i) = audioB64 by rw [hts]; rfl]
        by_cases hok : (sendToWebSocket env sessionId msg st2).1
        · rw [if_pos hok]
          obtain ⟨k, hk, hout⟩ := ih (i + 1) (sendToWebSocket env sessionId msg st2).2
          refine ⟨k + 1, by simpa using Nat.succ_le_succ hk, ?_⟩
          rw [hout, sendToWebSocket_true_out env sessionId msg st2 hok]
          have hso : st2.out = st.out := rfl
          rw [hso, hmsg2, List.range'_succ, List.map_cons]
          rw [List.append_assoc]
          rfl
        · rw [if_neg hok]
          refine ⟨0, Nat.zero_le _, ?_⟩
          rw [sendToWebSocket_false_out env sessionId msg st2
            (by revert hok; cases (sendToWebSocket env sessionId msg st2).1 <;> simp)]
          simp [hst2, suspend]

/-- A string that does not trim to empty still does not after another trim. -/
theorem jsTrim_jsTrim_ne (s : List Char) (h : jsTrim s ≠ []) :
    jsTrim (jsTrim s) ≠ [] := by
  intro hc
  rw [jsTrim_eq_nil_iff] at hc
  apply h
  rw [jsTrim_eq_nil_iff]
  intro c hcs
  by_cases hsp : isSpaceCh c = true
  · exact hsp
  · have hf : isSpaceCh c = false := by
      revert hsp; cases isSpaceCh c <;> simp
    have := hc c (mem_jsTrim c s hcs hf)
    rw [hf] at this
    cases this

/-- A successful chat completion is non-blank: the extracted content is the
trim of the raw content and was checked non-empty, so the orchestrator's own
blank re-check passes. -/
theorem getChatCompletion_ok (env : Upstream) (rt : List Char)
    (h : getChatCompletion env = .ok rt) : rt ≠ [] ∧ jsTrim rt ≠ [] := by
  unfold getChatCompletion at h
  cases hcc : env.chatContent with
  | error e =>
    rw [hcc] at h
    cases e <;> simp at h
  | ok o =>
    rw [hcc] at h
    cases o with
    | none => simp at h
    | some raw =>
      dsimp only at h
      by_cases ht : jsTrim raw = []
      · rw [if_pos ht] at h
        simp at h
      · rw [if_neg ht] at h
        have heq : jsTrim raw = rt := Except.ok.inj h
        subst heq
        exact ⟨ht, jsTrim_jsTrim_ne raw ht⟩

/-- Without cancellation, delivery failure or synthesis failure, the loop
delivers every chunk. -/
theorem ttsLoop_complete (env : Upstream) (sessionId : String) (total : Nat)
    (hpre : ∀ t sm, ((env.events t sm).isActive sessionId) = sm.isActive sessionId)
    (hsend : ∀ j, env.sendOk j = true)
    (htts : ∀ i, ∃ a, env.ttsOutcome i = .ok a) :
    ∀ (chunks : List (List Char)) (i : Nat) (st : RunState),
      st.sm.isActive sessionId = true →
      (ttsLoop env sessionId total chunks i st).2.out =
        st.out ++ (List.range' i chunks.length).map
          (fun j => OutMsg.audioChunk (chunkMsgOf env total j)) := by
  intro chunks
  induction chunks with
  | nil =>
    intro i st _
    simp [ttsLoop]
  | cons c rest ih =>
    intro i st hact
    rw [ttsLoop]
    rw [if_neg (show ¬((!st.sm.isActive sessionId) = true) by rw [hact]; simp)]
    obtain ⟨a, hts⟩ := htts i
    simp only [hts]
    have hact1 : (suspend env st).sm.isActive sessionId = true := by
      show ((env.events st.t st.sm).isActive sessionId) = true
      rw [hpre]
      exact hact
    have hact2 : (suspend env (suspend env st)).sm.isActive sessionId = true := by
      show ((env.events _ _).isActive sessionId) = true
      rw [hpre]
      exact hact1
    set st2 := suspend env (suspend env st) with hst2
    set msg := OutMsg.audioChunk ⟨a, i, total, decide (i = total - 1)⟩ with hmsg
    have hsok : (sendToWebSocket env sessionId msg st2).1 = true := by
      unfold sendToWebSocket
      rw [if_neg (show ¬((!st2.sm.isActive sessionId) = true) by rw [hact2]; simp)]
      exact hsend st2.sends
    rw [if_pos hsok]
    have hact3 : (sendToWebSocket env sessionId msg st2).2.sm.isActive sessionId = true := by
      rw [(sendToWebSocket_sm_t env sessionId msg st2).1]
      exact hact2
    rw [ih (i + 1) _ hact3]
    rw [sendToWebSocket_true_out env sessionId msg st2 hsok]
    have hso : st2.out = st.out := rfl
    have hmsg2 : msg = OutMsg.audioChunk (chunkMsgOf env total i) := by
      rw [hmsg, chunkMsgOf,
        show okValue (env.ttsOutcome i) = a by rw [hts]; rfl]
    rw [hso, hmsg2, List.length_cons, List.range'_succ, List.map_cons,
      List.append_assoc]
    rfl

/-- Error reporting adds no audio message. -/
theorem audioMsgs_handleError (env : Upstream) (e : JsError)
    (sessionId : String) (st : RunState) :
    audioMsgs (handleError env e sessionId st).out = audioMsgs st.out := by
  rw [handleError]
  rcases sendToWebSocket_out env sessionId
      (.errorMsg (classifyError e).1 (classifyError e).2) st with h | h <;> rw [h]
  rw [audioMsgs_append]
  simp [audioMsgs]

/-- Canonical form of a whole run's audio stream: for every run there are `N`
(the chunk count of the synthesis stage) and `k ≤ N` such that exactly the
messages for indices `0 .. k-1` were delivered; and when the session stays
active, every send is accepted, every synthesis succeeds and the chat stage
returned text, then `N` is the chunker's count for that text and `k = N`. -/
theorem processChain_audio_canonical :
    ∀ (env : Upstream) (chatRequest : ChatCompletionRequest)
      (ttsOptions : TTSRequest) (sessionId : String) (timeoutMs : Option Nat)
      (sm0 : SessionManager),
      ∃ N k, k ≤ N ∧
        audioMsgs ((processChain env chatRequest ttsOptions sessionId timeoutMs
            (initState sm0)).out) =
          (List.range k).map (chunkMsgOf env N) ∧
        (sm0.isActive sessionId = true →
          (∀ t sm, ((env.events t sm).isActive sessionId) = sm.isActive sessionId) →
          (∀ j, env.sendOk j = true) →
          (∀ i, ∃ a, env.ttsOutcome i = .ok a) →
          ∀ rt, getChatCompletion env = .ok rt →
            N = (smartSplit rt DEFAULT_MAX_TTS_CHARS).length ∧ k = N) := by
  intro env cr ttso sid tmo sm0
  rw [processChain]
  dsimp only
  by_cases ha : !((initState sm0).sm.isActive sid)
  · refine ⟨0, 0, Nat.le_refl 0, ?_, ?_⟩
    · rw [if_pos ha, audioMsgs_handleError]
      rfl
    · intro hact _ _ _ _ _
      exfalso
      have hact2 : (initState sm0).sm.isActive sid = true := hact
      rw [hact2] at ha
      simp at ha
  · rw [if_neg ha]
    simp only [retryOnce_eq]
    cases hc : getChatCompletion env with
    | error e =>
      dsimp only
      refine ⟨0, 0, Nat.le_refl 0, ?_, ?_⟩
      · rw [audioMsgs_handleError]
        rfl
      · intro _ _ _ _ rt hrt
        cases hrt
    | ok rt0 =>
      dsimp only
      have hne := getChatCompletion_ok env rt0 hc
      rw [if_neg hne.2]
      obtain ⟨k, hk, hout⟩ := ttsLoop_out env sid
        (smartSplit rt0 DEFAULT_MAX_TTS_CHARS).length
        (smartSplit rt0 DEFAULT_MAX_TTS_CHARS) 0 (suspend env (initState sm0))
      have houtA : audioMsgs ((getTTSAudioStream env rt0 sid
          (suspend env (initState sm0))).2.out) =
          (List.range k).map
            (chunkMsgOf env (smartSplit rt0 DEFAULT_MAX_TTS_CHARS).length) := by
        rw [getTTSAudioStream_state, hout]
        have h0 : (suspend env (initState sm0)).out = [] := rfl
        rw [h0, List.nil_append, audioMsgs_map_chunk, List.range_eq_range']
      refine ⟨(smartSplit rt0 DEFAULT_MAX_TTS_CHARS).length, k, hk, ?_, ?_⟩
      · cases hr : (getTTSAudioStream env rt0 sid (suspend env (initState sm0))).1 with
        | error e =>
          dsimp only
          rw [audioMsgs_handleError]
          exact houtA
        | ok u =>
          dsimp only
          exact houtA
      · intro hact hpre hsend htts rt hrt
        have hrteq : rt = rt0 := (Except.ok.inj hrt).symm
        subst hrteq
        refine ⟨rfl, ?_⟩
        have hact1 : (suspend env (initState sm0)).sm.isActive sid = true := by
          show ((env.events 0 sm0).isActive sid) = true
          rw [hpre]
          exact hact
        have hfull := ttsLoop_complete env sid
          (smartSplit rt DEFAULT_MAX_TTS_CHARS).length hpre hsend htts
          (smartSplit rt DEFAULT_MAX_TTS_CHARS) 0
          (suspend env (initState sm0)) hact1
        rw [hout] at hfull
        have heq := List.append_cancel_left hfull
        have hlen := congrArg List.length heq
        simp only [List.length_map, List.length_range'] at hlen
        exact hlen

/-- Counting one value in a `range` by filtering. -/
theorem length_filter_range_eq (k c : Nat) :
    ((List.range k).filter (fun j => decide (j = c))).length =
      if c < k then 1 else 0 := by
  induction k with
  | zero => simp
  | succ k ih =>
    rw [List.range_succ, List.filter_append, List.length_append, ih]
    by_cases h : k = c
    · subst h
      rw [if_neg (lt_irrefl k), if_pos (Nat.lt_succ_self k)]
      simp [List.filter_cons]
    · have hc2 : decide (k = c) = false := by simp [h]
      simp only [List.filter_cons, hc2, Bool.false_eq_true, if_false,
        List.filter_nil, List.length_nil]
      by_cases h3 : c < k
      · rw [if_pos h3, if_pos (by omega)]
      · rw [if_neg h3, if_neg (by omega)]

/-- CLAIM C2 counterexample.  A run whose single-chunk synthesis call fails:
the session stays active throughout (identity events) and every send is
accepted by the transport, so the run is cut short neither by cancellation
nor by a delivery failure; the chunker produced `N = 1` chunk; yet zero audio
chunk messages are emitted and no message carries `isLast = true` — the run
was cut short by the mid-stream synthesis failure, a case the claim's
exception clause omits. -/
theorem processChain_synth_failure_cex :
    audioMsgs ((processChain
          ⟨.ok (some "Hi.".toList), fun _ => .error (.jsOther "boom"),
            fun _ => true, fun _ sm => sm⟩
          ⟨[]⟩ ⟨[], none⟩ "s" none (initState ⟨["s"]⟩)).out) = [] ∧
      (smartSplit "Hi.".toList DEFAULT_MAX_TTS_CHARS).length = 1 ∧
      (∀ t sm, (Upstream.events
          ⟨.ok (some "Hi.".toList), fun _ => .error (.jsOther "boom"),
            fun _ => true, fun _ sm => sm⟩ t sm) = sm) ∧
      (∀ j, Upstream.sendOk
          ⟨.ok (some "Hi.".toList), fun _ => .error (.jsOther "boom"),
            fun _ => true, fun _ sm => sm⟩ j = true) ∧
      (SessionManager.mk ["s"]).isActive "s" = true :=
  ⟨by decide, by decide, fun _ _ => rfl, fun _ => rfl, by decide⟩

/-- CLAIM C2 (amended).  For every run, the audio chunk messages handed to
the transport are exactly those of indices `0 .. k-1` for some `k`: indices
strictly increase from 0; every message carries the run's chunk total `N`
and `isLast` exactly at index `N - 1`; at most one message carries `isLast`,
and a message with `isLast = true` is only emitted when all `N` chunks were
(it has index `N - 1`).  When the run is cut short by nothing — the session
stays active at every suspension point, every delivery is accepted, every
synthesis succeeds, and the chat stage returned text — all `N` chunks are
emitted and the final message carries `isLast = true`. -/
theorem processChain_chunk_stream :
    ∀ (env : Upstream) (chatRequest : ChatCompletionRequest)
      (ttsOptions : TTSRequest) (sessionId : String) (timeoutMs : Option Nat)
      (sm0 : SessionManager),
      (audioMsgs ((processChain env chatRequest ttsOptions sessionId timeoutMs
            (initState sm0)).out)).map AudioMsg.chunkIndex =
          List.range (audioMsgs ((processChain env chatRequest ttsOptions
            sessionId timeoutMs (initState sm0)).out)).length ∧
      (∀ m ∈ audioMsgs ((processChain env chatRequest ttsOptions sessionId
            timeoutMs (initState sm0)).out),
          m.isLast = decide (m.chunkIndex = m.totalChunks - 1) ∧
          (audioMsgs ((processChain env chatRequest ttsOptions sessionId
            timeoutMs (initState sm0)).out)).length ≤ m.totalChunks) ∧
      ((audioMsgs ((processChain env chatRequest ttsOptions sessionId
            timeoutMs (initState sm0)).out)).filter
          (fun m => m.isLast)).length ≤ 1 ∧
      (∀ m ∈ audioMsgs ((processChain env chatRequest ttsOptions sessionId
            timeoutMs (initState sm0)).out),
          m.isLast = true →
          m.chunkIndex = m.totalChunks - 1 ∧
          (audioMsgs ((processChain env chatRequest ttsOptions sessionId
            timeoutMs (initState sm0)).out)).length = m.totalChunks) ∧
      (sm0.isActive sessionId = true →
        (∀ t sm, ((env.events t sm).isActive sessionId) = sm.isActive sessionId) →
        (∀ j, env.sendOk j = true) →
        (∀ i, ∃ a, env.ttsOutcome i = .ok a) →
        ∀ rt, getChatCompletion env = .ok rt →
          (audioMsgs ((processChain env chatRequest ttsOptions sessionId
              timeoutMs (initState sm0)).out)).length =
            (smartSplit rt DEFAULT_MAX_TTS_CHARS).length ∧
          ∃ m, (audioMsgs ((processChain env chatRequest ttsOptions sessionId
              timeoutMs (initState sm0)).out)).getLast? = some m ∧
            m.isLast = true) := by
  intro env cr ttso sid tmo sm0
  obtain ⟨N, k, hk, hA, hcomplete⟩ :=
    processChain_audio_canonical env cr ttso sid tmo sm0
  have hlen : (audioMsgs ((processChain env cr ttso sid tmo
      (initState sm0)).out)).length = k := by
    rw [hA, List.length_map, List.length_range]
  refine ⟨?_, ?_, ?_, ?_, ?_⟩
  · rw [hA, List.length_map, List.length_range, List.map_map]
    show List.map (fun j => j) (List.range k) = List.range k
    exact List.map_id' (List.range k)
  · intro m hm
    rw [hA] at hm
    obtain ⟨j, hj, rfl⟩ := List.mem_map.mp hm
    exact ⟨rfl, by rw [hlen]; exact hk⟩
  · rw [hA, List.filter_map, List.length_map]
    have heq : ((List.range k).filter
        ((fun m => m.isLast) ∘ chunkMsgOf env N)).length =
        ((List.range k).filter (fun j => decide (j = N - 1))).length := rfl
    rw [heq, length_filter_range_eq]
    split_ifs <;> omega
  · intro m hm hlast
    rw [hA] at hm
    obtain ⟨j, hj, rfl⟩ := List.mem_map.mp hm
    rw [List.mem_range] at hj
    have hjN : j = N - 1 := by
      have : decide (j = N - 1) = true := hlast
      exact of_decide_eq_true this
    refine ⟨hjN, ?_⟩
    rw [hlen]
    show k = N
    omega
  · intro hact hpre hsend htts rt hrt
    obtain ⟨hN, hkN⟩ := hcomplete hact hpre hsend htts rt hrt
    have hNpos : 1 ≤ N := by
      rw [hN]
      have hne := smartSplit_ne_nil rt DEFAULT_MAX_TTS_CHARS (by decide)
      rcases Nat.eq_zero_or_pos (smartSplit rt DEFAULT_MAX_TTS_CHARS).length with h0 | h1
      · exact absurd (List.eq_nil_of_length_eq_zero h0) hne
      · exact h1
    refine ⟨by rw [hlen, hkN, hN], ?_⟩
    refine ⟨chunkMsgOf env N (N - 1), ?_, ?_⟩
    · rw [hA, hkN]
      obtain ⟨M, hM⟩ : ∃ M, N = M + 1 := ⟨N - 1, by omega⟩
      rw [hM]
      rw [List.range_succ, List.map_append, List.map_cons, List.map_nil,
        List.getLast?_concat]
      norm_num
    · show decide (N - 1 = N - 1) = true
      simp

/-- Witness for `processChain_chunk_stream`: a fully successful single-chunk
run emits all its chunks and ends with `isLast = true`. -/
theorem processChain_chunk_stream_witness :
    (audioMsgs ((processChain
          ⟨.ok (some "Hi there.".toList), fun _ => .ok "QUJD", fun _ => true,
            fun _ sm => sm⟩
          ⟨[]⟩ ⟨[], none⟩ "s" none (initState ⟨["s"]⟩)).out)).length =
        (smartSplit "Hi there.".toList DEFAULT_MAX_TTS_CHARS).length ∧
      ∃ m, (audioMsgs ((processChain
          ⟨.ok (some "Hi there.".toList), fun _ => .ok "QUJD", fun _ => true,
            fun _ sm => sm⟩
          ⟨[]⟩ ⟨[], none⟩ "s" none (initState ⟨["s"]⟩)).out)).getLast? =
          some m ∧ m.isLast = true :=
  (processChain_chunk_stream
      ⟨.ok (some "Hi there.".toList), fun _ => .ok "QUJD", fun _ => true,
        fun _ sm => sm⟩
      ⟨[]⟩ ⟨[], none⟩ "s" none ⟨["s"]⟩).2.2.2.2
    (by decide) (fun _ _ => rfl) (fun _ => rfl) (fun _ => ⟨"QUJD", rfl⟩)
    "Hi there.".toList rfl

/-- A parsed JavaScript value of an inbound message field — the shapes needed
to model JavaScript truthiness and `typeof x !== "string"`. -/
inductive JsVal where
  | str (s : List Char)
  | num (n : Int)
  | boolVal (b : Bool)
  | nullVal
deriving DecidableEq

/-- JavaScript falsiness of a present field value (`!text`): empty string,
zero, `false`, `null`.  An absent field (`undefined`) is handled at the
`Option` level by the caller. -/
def jsFalsy : JsVal → Bool
  | .str s => s.isEmpty
  | .num n => n == 0
  | .boolVal b => !b
  | .nullVal => true

/-- `typeof v === "string"`. -/
def isStringVal : JsVal → Bool
  | .str _ => true
  | _ => false

/-- The string payload of a string value. -/
def strVal : JsVal → List Char
  | .str s => s
  | _ => []

/-- A parsed inbound WebSocket message: the destructured `reqType` and `text`
fields (`none` models an absent / `undefined` field). -/
structure InboundMsg where
  reqType : Option String
  text : Option JsVal
deriving DecidableEq

/-- A direct `ws.send` reply of the message handler: `{ error: ... }` or
`{ status: ... }`. -/
inductive Reply where
  | errorField (msg : String)
  | statusMsg (s : String)
deriving DecidableEq

/-- Result of one message-handler invocation: the updated registry, the
direct replies sent on the socket in order, and the completion request the
pipeline was invoked with (`none` when the pipeline was not invoked). -/
structure HandlerResult where
  sm : SessionManager
  replies : List Reply
  invoked : Option ChatCompletionRequest
deriving DecidableEq

/-- The per-message WebSocket handler registered by `setupWebSocket`
(src/controllers/SocketManager.ts), for one parsed message: a `cancel`
request removes the session and replies nothing; any other message first
calls `addSession` and only then validates `text` with
`!text || typeof text !== "string"` — an absent, non-string or falsy (empty)
text gets the `text field required` error reply and the pipeline is not
invoked; otherwise the trimmed text is acknowledged with the two status
replies and passed to the pipeline as a single user message.  (The
surrounding `try`/`catch` for unparsable frames, the speech request
`{input: ""}`, and the `close`-handler cleanup are outside this model.) -/
def handleMessage (sm : SessionManager) (sessionId : String)
    (msg : InboundMsg) : HandlerResult :=
  if msg.reqType = some "cancel" then
    ⟨sm.removeSession sessionId, [], none⟩
  else
    let sm1 := sm.addSession sessionId
    match msg.text with
    | none => ⟨sm1, [.errorField "text field required"], none⟩
    | some v =>
      if jsFalsy v || !(isStringVal v) then
        ⟨sm1, [.errorField "text field required"], none⟩
      else
        let userText := jsTrim (strVal v)
        ⟨sm1, [.statusMsg "msg received", .statusMsg "thinking"],
          some ⟨[⟨"user", userText⟩]⟩⟩

/-- CLAIM C8 counterexample.  For a prompt with a missing `text` the handler
does reply `text field required` and does not invoke the pipeline — but the
session HAS been marked active (`addSession` runs before the validation),
contradicting "without marking the session active"; and a present but empty
`text`, although it is a string, also takes the error branch instead of the
claimed otherwise-branch. -/
theorem handleMessage_marks_active_cex :
    handleMessage ⟨[]⟩ "s" ⟨some "prompt", none⟩ =
        ⟨⟨["s"]⟩, [.errorField "text field required"], none⟩ ∧
      (SessionManager.mk ["s"]).isActive "s" = true ∧
      handleMessage ⟨[]⟩ "s" ⟨some "prompt", some (.str [])⟩ =
        ⟨⟨["s"]⟩, [.errorField "text field required"], none⟩ :=
  ⟨by decide, by decide, by decide⟩

/-- The handler's text-validation condition
`!text || typeof text !== "string"`, lifted to the optional field: true
unless the field holds a non-empty string. -/
def textInvalid : Option JsVal → Bool
  | none => true
  | some v => jsFalsy v || !(isStringVal v)

/-- CLAIM C8 (amended).  For every inbound prompt message the handler first
marks the session active; then, if the `text` field is missing, not a
string, or empty, it replies `{ error: "text field required" }` and stops
without invoking the pipeline (the session stays marked active); otherwise it
replies `{ status: "msg received" }` then `{ status: "thinking" }` and
invokes the pipeline with a completion request holding the trimmed text as a
single user message. -/
theorem handleMessage_prompt :
    ∀ (sm : SessionManager) (sessionId : String) (t : Option JsVal),
      (handleMessage sm sessionId ⟨some "prompt", t⟩).sm =
          sm.addSession sessionId ∧
        (textInvalid t = true →
          handleMessage sm sessionId ⟨some "prompt", t⟩ =
            ⟨sm.addSession sessionId, [.errorField "text field required"],
              none⟩) ∧
        ∀ s, t = some (.str s) → s ≠ [] →
          handleMessage sm sessionId ⟨some "prompt", t⟩ =
            ⟨sm.addSession sessionId,
              [.statusMsg "msg received", .statusMsg "thinking"],
              some ⟨[⟨"user", jsTrim s⟩]⟩⟩ := by
  intro sm sid t
  have hnc : ¬ ((⟨some "prompt", t⟩ : InboundMsg).reqType = some "cancel") := by
    simp
  refine ⟨?_, ?_, ?_⟩
  · rw [handleMessage, if_neg hnc]
    cases t with
    | none => rfl
    | some v =>
      dsimp only
      by_cases h : jsFalsy v || !(isStringVal v)
      · rw [if_pos h]
      · rw [if_neg h]
  · intro hinv
    rw [handleMessage, if_neg hnc]
    cases t with
    | none => rfl
    | some v =>
      dsimp only
      have h : (jsFalsy v || !(isStringVal v)) = true := hinv
      rw [if_pos h]
  · intro s hts hne
    subst hts
    rw [handleMessage, if_neg hnc]
    dsimp only
    have h : (jsFalsy (.str s) || !(isStringVal (.str s))) = false := by
      simp [jsFalsy, isStringVal, hne]
    rw [if_neg (show ¬((jsFalsy (JsVal.str s) || !(isStringVal (JsVal.str s))) = true) by
      rw [h]; simp)]
    rfl

/-- Witness for `handleMessage_prompt`: a valid prompt is acknowledged and
forwarded trimmed. -/
theorem handleMessage_prompt_witness :
    handleMessage ⟨[]⟩ "w" ⟨some "prompt", some (.str "  hello  ".toList)⟩ =
      ⟨SessionManager.addSession ⟨[]⟩ "w",
        [.statusMsg "msg received", .statusMsg "thinking"],
        some ⟨[⟨"user", jsTrim "  hello  ".toList⟩]⟩⟩ :=
  (handleMessage_prompt ⟨[]⟩ "w" (some (.str "  hello  ".toList))).2.2
    "  hello  ".toList rfl (by decide)
